import Mathlib

/-!
Verification of `epub-renamer` (`main.go`).

The Go program bulk-renames epub files: for each input path it detects the
MIME type, opens the zip container, locates the first entry whose name ends
in ".opf", XML-decodes it into a two-field record (title, author), derives
an output filename by regex sanitization, and copies the input to
`outputDirectory/<sanitized>`; a batch orchestrator launches one goroutine
per input and collects one `(path, ok)` message per task from a shared
channel into a map.

External primitives (the zip reader, the XML decoder `xml.Unmarshal`, the
MIME detector, and the OS filesystem calls) are modelled by their results:
a task environment carries the outcome each primitive would return, and the
XML decoder is a function parameter `um` from raw bytes to a decoded tree.
All definitions below mirror the corresponding Go functions from
`main.go`; declarations prefixed `spec` restate the specification's own
wording for comparison with the code model.
-/

namespace EpubRenamer

/-- Characters kept by the sanitizer's character class: the regex
`[^a-zA-Z0-9]+` from `sanitizeData` matches exactly the runs of characters
for which this predicate is false. -/
def isAsciiAlnum (c : Char) : Bool :=
  (('a' ≤ c) && (c ≤ 'z')) || (('A' ≤ c) && (c ≤ 'Z')) || (('0' ≤ c) && (c ≤ '9'))

/-- Model of Go `strings.HasSuffix`, at the character-list level. -/
def hasSuffix (s suf : String) : Bool :=
  suf.data.isSuffixOf s.data

/-- Go struct `BookData` with fields tagged `xml:"metadata>title"` and
`xml:"metadata>creator"`; Go's zero value for both fields is `""`. -/
structure BookData where
  Title : String
  Author : String
deriving DecidableEq, Repr

/-- Decoded XML tree: result type of the external primitive `xml.Unmarshal`
(a well-formed markup document); element and character-data nodes. -/
inductive XmlNode where
  | elem (name : String) (children : List XmlNode)
  | text (s : String)

/-- Child elements of a node bearing a given local name (one step of the
`>`-separated path of a Go xml struct tag). -/
def XmlNode.childElems (p : String) : XmlNode → List XmlNode
  | .elem _ cs => cs.filter (fun c => match c with | .elem n _ => n == p | .text _ => false)
  | .text _ => []

/-- Character data directly inside a node, as collected by `xml.Unmarshal`
for a string-typed field (nested elements contribute nothing). -/
def XmlNode.charData : XmlNode → String
  | .text s => s
  | .elem _ cs => String.join (cs.filterMap (fun c => match c with | .text s => some s | .elem _ _ => none))

/-- All nodes reached from `n` by the `>`-separated tag path, in document
order, as traversed by `xml.Unmarshal` for a field tag like
`metadata>title`. -/
def matchPath (path : List String) (n : XmlNode) : List XmlNode :=
  match path with
  | [] => [n]
  | p :: ps => (n.childElems p).flatMap (matchPath ps)

/-- Value `xml.Unmarshal` leaves in a string field with the given tag path:
each match overwrites the field in document order, so the last match wins;
no match leaves the field unset. -/
def xmlField (doc : XmlNode) (path : List String) : Option String :=
  ((matchPath path doc).map XmlNode.charData).getLast?

/-- Model of `xml.Unmarshal(byteValue, &bookData)` on an already-decoded
well-formed document: populate the two tagged fields of `BookData`,
defaulting an absent field to Go's zero value `""`. -/
def unmarshalBookData (doc : XmlNode) : BookData :=
  { Title := (xmlField doc ["metadata", "title"]).getD ""
    Author := (xmlField doc ["metadata", "creator"]).getD "" }

/-- The error values `run` can observe, merged into one type (Go only ever
tests `err != nil`): I/O errors carried by the zip reader and `io.ReadAll`,
decode errors from `xml.Unmarshal`, and the program's own
`EpubMetadataParseError` ("failed to find epub opf"). -/
inductive EpubError where
  | ioError (msg : String)
  | decodeError (msg : String)
  | epubMetadataParseError
deriving DecidableEq, Repr

/-- An opened zip entry stream: `io.ReadAll(rc)` either fails or yields the
entry's raw bytes. -/
structure ReadCloser where
  readAll : Except String (List Char)

/-- One entry of the opened zip archive: its stored name and the outcome of
`file.Open()`. -/
structure ZipFile where
  name : String
  openRc : Except String ReadCloser

/-- Go `parseContentOPF`: read all bytes from the entry stream, then
XML-decode them into a `BookData`; `um` is the external `xml.Unmarshal`
primitive taking the raw bytes to a decoded tree or a decode error. -/
def parseContentOPF (um : List Char → Except String XmlNode) (rc : ReadCloser) :
    Except EpubError BookData :=
  match rc.readAll with
  | .error e => .error (.ioError e)
  | .ok byteValue =>
    match um byteValue with
    | .error e => .error (.decodeError e)
    | .ok doc => .ok (unmarshalBookData doc)

/-- Go `readEpubData`: scan the archive's entries in stored order; at the
first entry whose name ends in ".opf", open it and parse it; if no entry
matches, fail with `EpubMetadataParseError`. -/
def readEpubData (um : List Char → Except String XmlNode) :
    List ZipFile → Except EpubError BookData
  | [] => .error .epubMetadataParseError
  | file :: rest =>
    if hasSuffix file.name ".opf" then
      match file.openRc with
      | .error e => .error (.ioError e)
      | .ok rc => parseContentOPF um rc
    else readEpubData um rest

/-- What `readEpubData` does with the first ".opf" entry: open it and, on
success, parse its content. -/
def openAndParse (um : List Char → Except String XmlNode) (file : ZipFile) :
    Except EpubError BookData :=
  match file.openRc with
  | .error e => .error (.ioError e)
  | .ok rc => parseContentOPF um rc

/-- Model of Go `regexp.MustCompile("[^a-zA-Z0-9]+").ReplaceAllString`: scan
left to right; an alphanumeric character is kept; a non-alphanumeric
character opens (or continues) a match of the regex, and the replacement is
emitted once per maximal match, at its start. `inRun` records whether the
previous character was inside a match. -/
def replaceAllAux (repl : List Char) : List Char → Bool → List Char
  | [], _ => []
  | c :: cs, inRun =>
    if isAsciiAlnum c then c :: replaceAllAux repl cs false
    else if inRun then replaceAllAux repl cs true
    else repl ++ replaceAllAux repl cs true

/-- String-level wrapper for `replaceAllAux`. -/
def replaceAllNonAlnum (repl s : String) : String :=
  ⟨replaceAllAux repl.data s.data false⟩

/-- Go `sanitizeData`: replace non-alphanumeric runs of the title with "_",
delete those of the author, and join with "-" and the ".epub" extension. -/
def sanitizeData (data : BookData) : String :=
  replaceAllNonAlnum "_" data.Title ++ "-" ++ replaceAllNonAlnum "" data.Author ++ ".epub"

theorem length_dropWhile_le (p : Char → Bool) (l : List Char) :
    (l.dropWhile p).length ≤ l.length := by
  induction l with
  | nil => simp
  | cons c cs ih =>
      rw [List.dropWhile_cons]
      split
      · exact Nat.le_trans ih (Nat.le_succ _)
      · simp

/-- Specification-side sanitizer, following the spec's words: "replace
every maximal run of characters outside the ASCII alphanumeric set" with
`repl` — each maximal non-alphanumeric run is consumed whole (`dropWhile`)
and contributes one copy of `repl`. -/
def specCollapseRuns (repl : List Char) : List Char → List Char
  | [] => []
  | c :: cs =>
    if isAsciiAlnum c then c :: specCollapseRuns repl cs
    else repl ++ specCollapseRuns repl (cs.dropWhile (fun x => ! isAsciiAlnum x))
termination_by l => l.length
decreasing_by
  all_goals simp only [List.length_cons]
  · exact Nat.lt_succ_self _
  · exact Nat.lt_succ_of_le (length_dropWhile_le _ _)

/-- Specification-side title sanitizer: maximal non-alphanumeric runs
become a single underscore. -/
def specSanitizeTitle (t : String) : String :=
  ⟨specCollapseRuns ['_'] t.data⟩

/-- Specification-side author sanitizer: maximal non-alphanumeric runs are
deleted. -/
def specSanitizeAuthor (a : String) : String :=
  ⟨specCollapseRuns [] a.data⟩

theorem replaceAllAux_eq_specCollapseRuns (repl : List Char) :
    ∀ n (s : List Char), s.length ≤ n →
      replaceAllAux repl s false = specCollapseRuns repl s ∧
      replaceAllAux repl s true
        = specCollapseRuns repl (s.dropWhile (fun x => ! isAsciiAlnum x)) := by
  intro n
  induction n with
  | zero =>
      intro s hs
      have hnil : s = [] := List.length_eq_zero.mp (Nat.le_zero.mp hs)
      subst hnil
      constructor <;> simp [replaceAllAux, specCollapseRuns]
  | succ n ih =>
      intro s hs
      cases s with
      | nil => constructor <;> simp [replaceAllAux, specCollapseRuns]
      | cons c cs =>
          have hcs : cs.length ≤ n := Nat.le_of_succ_le_succ hs
          by_cases hc : isAsciiAlnum c = true
          · constructor
            · simp [replaceAllAux, specCollapseRuns, hc, (ih cs hcs).1]
            · simp [replaceAllAux, List.dropWhile_cons, hc, specCollapseRuns, (ih cs hcs).1]
          · have hcb : isAsciiAlnum c = false := Bool.eq_false_iff.mpr hc
            constructor
            · simp [replaceAllAux, specCollapseRuns, hcb, (ih cs hcs).2]
            · simp [replaceAllAux, List.dropWhile_cons, hcb, (ih cs hcs).2]

/-- Filesystem action a Copy Task can perform in the output directory:
`os.Create` of the destination, a copy that stops partway (`wroteSome`), a
completed copy (`wroteAll`); `removed` and `truncated` are listed so that
theorems can state that `run` never performs them. -/
inductive FsOp where
  | created (path : String)
  | wroteSome (path : String)
  | wroteAll (path : String)
  | removed (path : String)
  | truncated (path : String)
deriving DecidableEq, Repr

/-- The path an `FsOp` acts on. -/
def FsOp.target : FsOp → String
  | .created p => p
  | .wroteSome p => p
  | .wroteAll p => p
  | .removed p => p
  | .truncated p => p

/-- Results of the external primitives one `run` invocation consults, in
program order: `mimetype.DetectFile(file)`, `zip.OpenReader(file)` (the
entry list on success), and whether `os.Create`, `os.Open(file)` and
`io.Copy` succeed. -/
structure RunEnv where
  mimeDetect : Except String String
  zipOpen : Except String (List ZipFile)
  createOk : Bool
  openInputOk : Bool
  copyOk : Bool

/-- Observable behaviour of one `run` invocation: the `(path, ok)` pair the
task sends on the result channel, and the filesystem actions it performed
in the output directory. -/
structure RunResult where
  sent : String × Bool
  fsOps : List FsOp
deriving DecidableEq, Repr

/-- Go `run`: detect the MIME type (must be exactly "application/epub+zip"),
open the zip, read and parse the metadata, sanitize the filename, reject an
empty filename, create the destination `outputDirectory + "/" + filename`,
open the input, and copy the bytes; every failure branch sends
`(file, false)` and returns, success sends `(file, true)`. A failing
`io.Copy` leaves the partially written destination in place (`wroteSome`
with no `removed`/`truncated`). -/
def run (um : List Char → Except String XmlNode) (file outputDirectory : String)
    (env : RunEnv) : RunResult :=
  match env.mimeDetect with
  | .error _ => ⟨(file, false), []⟩
  | .ok mtype =>
    if mtype ≠ "application/epub+zip" then ⟨(file, false), []⟩
    else
      match env.zipOpen with
      | .error _ => ⟨(file, false), []⟩
      | .ok f =>
        match readEpubData um f with
        | .error _ => ⟨(file, false), []⟩
        | .ok data =>
          let filename := sanitizeData data
          if filename = "" then ⟨(file, false), []⟩
          else
            let dest := outputDirectory ++ "/" ++ filename
            if !env.createOk then ⟨(file, false), []⟩
            else if !env.openInputOk then ⟨(file, false), [.created dest]⟩
            else if !env.copyOk then ⟨(file, false), [.created dest, .wroteSome dest]⟩
            else ⟨(file, true), [.created dest, .wroteAll dest]⟩

/-- Go map assignment `results[k] = v`: overwrite the entry if the key is
present, otherwise add it. The map is modelled as an association list
without duplicate keys. -/
def mapInsert (m : List (String × Bool)) (k : String) (v : Bool) : List (String × Bool) :=
  if m.any (fun p => p.1 == k) then
    m.map (fun p => if p.1 == k then (k, v) else p)
  else m ++ [(k, v)]

/-- Go map read `m[k]` (as an `Option`). -/
def mapLookup (m : List (String × Bool)) (k : String) : Option Bool :=
  (m.find? (fun p => p.1 == k)).map Prod.snd

/-- The orchestrator's collection loop in `main`: perform `n` blocking
receives from the results channel (whose arrivals are the list `s`, in
arrival order), assigning `results[path] = ok` for each; returns the final
map and the messages not received. -/
def collectLoop : Nat → List (String × Bool) → List (String × Bool) →
    List (String × Bool) × List (String × Bool)
  | 0, m, s => (m, s)
  | _ + 1, m, [] => (m, [])
  | n + 1, m, r :: s => collectLoop n (mapInsert m r.1 r.2) s

/-- Observable behaviour of `main`: the process exit status, the input
paths for which a Copy Task goroutine was launched, and the final results
map. -/
structure MainResult where
  exitCode : Nat
  launched : List String
  results : List (String × Bool)
deriving DecidableEq, Repr

/-- Go `main`: with fewer than 3 arguments print usage and exit 1; if
`isDirectory(os.Args[1])` errors or returns false, log and exit 1 before
launching anything; otherwise launch one `run` goroutine per file in
`os.Args[2:]`, receive exactly `len(files)` results, and fall off the end
of `main` (exit status 0). `statOutputDir` is the outcome of the external
`os.Stat`-based `isDirectory` check; `arrivals` is the channel's arrival
order. -/
def mainGo (argv : List String) (statOutputDir : Except String Bool)
    (arrivals : List (String × Bool)) : MainResult :=
  if argv.length < 3 then ⟨1, [], []⟩
  else
    match statOutputDir with
    | .error _ => ⟨1, [], []⟩
    | .ok false => ⟨1, [], []⟩
    | .ok true =>
      let files := argv.drop 2
      ⟨0, files, (collectLoop files.length [] arrivals).1⟩

/-- An `xml.Unmarshal` that decodes any byte sequence to a well-formed
document with no `metadata` block, so both `BookData` fields stay `""`. -/
def emptyMetaUm : List Char → Except String XmlNode :=
  fun _ => .ok (.elem "package" [])

/-- Task environment in which every primitive succeeds and the zip holds a
single "content.opf" entry whose bytes decode via `emptyMetaUm`. -/
def emptyMetaEnv : RunEnv :=
  { mimeDetect := .ok "application/epub+zip"
    zipOpen := .ok [{ name := "content.opf", openRc := .ok { readAll := .ok [] } }]
    createOk := true
    openInputOk := true
    copyOk := true }

theorem sanitizeData_data (data : BookData) :
    (sanitizeData data).data
      = replaceAllAux ['_'] data.Title.data false
          ++ '-' :: (replaceAllAux [] data.Author.data false ++ ".epub".data) := by
  have h1 : ("_" : String).data = ['_'] := rfl
  have h2 : ("" : String).data = [] := rfl
  have h3 : ("-" : String).data = ['-'] := rfl
  simp [sanitizeData, replaceAllNonAlnum, String.data_append, h1, h2, h3]

/-- C1: for every `BookData` with title `T` and author `A`, `sanitizeData`
returns `specSanitizeTitle T ++ "-" ++ specSanitizeAuthor A ++ ".epub"`,
where the title sanitizer replaces every maximal run of characters outside
`[a-zA-Z0-9]` with a single underscore and the author sanitizer deletes
every such run; in particular title "The Hobbit!" with author
"J.R.R. Tolkien" yields "The_Hobbit_-JRRTolkien.epub". -/
theorem sanitize_filename_formula :
    (∀ T A : String,
        sanitizeData ⟨T, A⟩ = specSanitizeTitle T ++ "-" ++ specSanitizeAuthor A ++ ".epub") ∧
    sanitizeData ⟨"The Hobbit!", "J.R.R. Tolkien"⟩ = "The_Hobbit_-JRRTolkien.epub" := by
  constructor
  · intro T A
    have hT := (replaceAllAux_eq_specCollapseRuns ['_'] T.data.length T.data le_rfl).1
    have hA := (replaceAllAux_eq_specCollapseRuns [] A.data.length A.data le_rfl).1
    have h1 : ("_" : String).data = ['_'] := rfl
    have h2 : ("" : String).data = [] := rfl
    apply String.ext
    simp [sanitizeData, replaceAllNonAlnum, specSanitizeTitle, specSanitizeAuthor,
      String.data_append, h1, h2, hT, hA]
  · decide

/-- C2 evidence: with empty title and empty author, the sanitized filename
is "-.epub", which is not the empty string, so the `filename == ""` guard
in `run` does not fire; with every primitive succeeding, the task creates
the file "-.epub" in the output directory, copies the input into it, and
reports success — it is not
rejected with an empty-name error and an output file is created. -/
theorem empty_metadata_accepted :
    sanitizeData ⟨"", ""⟩ = "-.epub" ∧
    (sanitizeData ⟨"", ""⟩ == "") = false ∧
    run emptyMetaUm "book.epub" "out" emptyMetaEnv
      = ⟨("book.epub", true), [.created "out/-.epub", .wroteAll "out/-.epub"]⟩ := by
  refine ⟨by decide, by decide, by decide⟩

/-- C10: the sanitizer's result is never the empty string — it always ends
in ".epub" and always contains the "-" separator — so the
`if filename == ""` branch of `run` is unreachable; empty metadata yields
the filename "-.epub", and the Copy Task then creates a file named
"-.epub" in the output directory and succeeds rather than rejecting the
input. -/
theorem sanitized_name_never_empty :
    (∀ data : BookData,
        sanitizeData data ≠ "" ∧
        (∃ base : String, sanitizeData data = base ++ ".epub") ∧
        (∃ u v : List Char, (sanitizeData data).data = u ++ '-' :: v)) ∧
    sanitizeData ⟨"", ""⟩ = "-.epub" ∧
    (run emptyMetaUm "book.epub" "out" emptyMetaEnv).sent = ("book.epub", true) ∧
    FsOp.created "out/-.epub" ∈ (run emptyMetaUm "book.epub" "out" emptyMetaEnv).fsOps := by
  refine ⟨?_, by decide, by decide, by decide⟩
  intro data
  refine ⟨?_, ⟨replaceAllNonAlnum "_" data.Title ++ "-" ++ replaceAllNonAlnum "" data.Author, rfl⟩,
    ⟨replaceAllAux ['_'] data.Title.data false,
      replaceAllAux [] data.Author.data false ++ ".epub".data, sanitizeData_data data⟩⟩
  intro h
  have hd := congrArg String.data h
  rw [sanitizeData_data data] at hd
  have h2 : ("" : String).data = [] := rfl
  rw [h2] at hd
  exact absurd hd (by simp)

/-- Witness for C10 at a concrete record: the sanitized name of the empty
metadata record is non-empty. -/
theorem sanitized_name_never_empty_witness :
    sanitizeData ⟨"", ""⟩ ≠ "" :=
  (sanitized_name_never_empty.1 ⟨"", ""⟩).1

theorem sanitizeData_ne_empty (data : BookData) : sanitizeData data ≠ "" := by
  intro h
  have hd := congrArg String.data h
  rw [sanitizeData_data data] at hd
  have h2 : ("" : String).data = [] := rfl
  rw [h2] at hd
  exact absurd hd (by simp)

/-- C3: `readEpubData` scans the archive's entries in stored order and
handles exactly the first entry whose name ends with ".opf" (opening it
and parsing its content); when no entry's name has that suffix it returns
the `EpubMetadataParseError` (NotFound) failure and no content. -/
theorem read_epub_data_first_opf (um : List Char → Except String XmlNode)
    (files : List ZipFile) :
    readEpubData um files
      = match files.find? (fun f => hasSuffix f.name ".opf") with
        | some file => openAndParse um file
        | none => .error .epubMetadataParseError := by
  induction files with
  | nil => rfl
  | cons file rest ih =>
      by_cases h : hasSuffix file.name ".opf" = true
      · simp [readEpubData, List.find?, h, openAndParse]
      · have hb : hasSuffix file.name ".opf" = false := Bool.eq_false_iff.mpr h
        simp [readEpubData, List.find?, hb, ih]

/-- C4: given the bytes of the descriptor entry, the parser fails with a
decode error exactly when `xml.Unmarshal` rejects the bytes as malformed
markup; on well-formed markup it always succeeds, and a document in which
the title path (or the author path) matches no node yields `""` for that
field with no error. -/
theorem parse_content_opf_permissive (um : List Char → Except String XmlNode)
    (rc : ReadCloser) (byteValue : List Char) (hread : rc.readAll = .ok byteValue) :
    (∀ e, um byteValue = .error e → parseContentOPF um rc = .error (.decodeError e)) ∧
    (∀ doc, um byteValue = .ok doc →
        parseContentOPF um rc = .ok (unmarshalBookData doc) ∧
        (matchPath ["metadata", "title"] doc = [] → (unmarshalBookData doc).Title = "") ∧
        (matchPath ["metadata", "creator"] doc = [] → (unmarshalBookData doc).Author = "")) := by
  constructor
  · intro e he
    simp [parseContentOPF, hread, he]
  · intro doc hdoc
    refine ⟨by simp [parseContentOPF, hread, hdoc], ?_, ?_⟩
    · intro habs
      simp [unmarshalBookData, xmlField, habs]
    · intro habs
      simp [unmarshalBookData, xmlField, habs]

/-- Witness for C4: a concrete stream whose bytes decode to a document with
no `metadata` block parses successfully to the record with both fields
empty. -/
theorem parse_content_opf_permissive_witness :
    parseContentOPF emptyMetaUm { readAll := .ok [] } = .ok { Title := "", Author := "" } := by
  have h := ((parse_content_opf_permissive emptyMetaUm { readAll := .ok [] } [] rfl).2
    (.elem "package" []) rfl).1
  exact h

/-- C5: when the detected MIME type is anything but "application/epub+zip",
`run` fails immediately — it sends `(file, false)` and performs no
filesystem action in the output directory — and its behaviour does not
depend on the zip container at all (it is rejected before the container is
opened). -/
theorem wrong_mime_rejected (um : List Char → Except String XmlNode)
    (file outputDirectory : String) (env : RunEnv) (mtype : String)
    (hm : env.mimeDetect = .ok mtype) (hne : mtype ≠ "application/epub+zip") :
    run um file outputDirectory env = ⟨(file, false), []⟩ ∧
    ∀ z, run um file outputDirectory { env with zipOpen := z }
        = run um file outputDirectory env := by
  constructor
  · simp [run, hm, hne]
  · intro z
    simp [run, hm, hne]

/-- Task environment whose MIME detection yields a non-epub type. -/
def wrongMimeEnv : RunEnv :=
  { mimeDetect := .ok "application/zip"
    zipOpen := .error "unused"
    createOk := true
    openInputOk := true
    copyOk := true }

/-- Witness for C5: a concrete non-epub input is rejected with no
filesystem action. -/
theorem wrong_mime_rejected_witness :
    run emptyMetaUm "doc.pdf" "out" wrongMimeEnv = ⟨("doc.pdf", false), []⟩ :=
  (wrong_mime_rejected emptyMetaUm "doc.pdf" "out" wrongMimeEnv "application/zip" rfl
    (by decide)).1

/-- C9: when every step up to `io.Copy` succeeds but the byte copy fails,
the task reports failure, yet the destination file it created — with a
partial write — is left in the output directory: `run` performs no
`removed` and no `truncated` action, and every action it performs targets
only that one destination path. -/
theorem copy_failure_keeps_partial_dest (um : List Char → Except String XmlNode)
    (file outputDirectory : String) (env : RunEnv)
    (entries : List ZipFile) (data : BookData)
    (hm : env.mimeDetect = .ok "application/epub+zip")
    (hz : env.zipOpen = .ok entries)
    (hr : readEpubData um entries = .ok data)
    (hc : env.createOk = true) (ho : env.openInputOk = true) (hcp : env.copyOk = false) :
    (run um file outputDirectory env).sent = (file, false) ∧
    (run um file outputDirectory env).fsOps
      = [.created (outputDirectory ++ "/" ++ sanitizeData data),
         .wroteSome (outputDirectory ++ "/" ++ sanitizeData data)] ∧
    (∀ p, FsOp.removed p ∉ (run um file outputDirectory env).fsOps ∧
          FsOp.truncated p ∉ (run um file outputDirectory env).fsOps) ∧
    (∀ op ∈ (run um file outputDirectory env).fsOps,
        op.target = outputDirectory ++ "/" ++ sanitizeData data) := by
  have hne := sanitizeData_ne_empty data
  have hrun : run um file outputDirectory env
      = ⟨(file, false),
         [.created (outputDirectory ++ "/" ++ sanitizeData data),
          .wroteSome (outputDirectory ++ "/" ++ sanitizeData data)]⟩ := by
    simp [run, hm, hz, hr, hc, ho, hcp, hne]
  rw [hrun]
  refine ⟨rfl, rfl, ?_, ?_⟩
  · intro p
    constructor <;> intro hmem <;> simp at hmem
  · intro op hop
    simp only [List.mem_cons, List.not_mem_nil, or_false] at hop
    rcases hop with rfl | rfl <;> rfl

/-- Task environment in which everything succeeds except the final byte
copy. -/
def copyFailEnv : RunEnv :=
  { emptyMetaEnv with copyOk := false }

/-- Witness for C9: a concrete copy failure reports `(path, false)` and
leaves exactly the created destination and its partial write behind. -/
theorem copy_failure_keeps_partial_dest_witness :
    (run emptyMetaUm "book.epub" "out" copyFailEnv).sent = ("book.epub", false) ∧
    (run emptyMetaUm "book.epub" "out" copyFailEnv).fsOps
      = [.created "out/-.epub", .wroteSome "out/-.epub"] := by
  have h := copy_failure_keeps_partial_dest emptyMetaUm "book.epub" "out" copyFailEnv
    [{ name := "content.opf", openRc := .ok { readAll := .ok [] } }] ⟨"", ""⟩
    rfl rfl rfl rfl rfl rfl
  exact ⟨h.1, h.2.1.trans (by decide)⟩

theorem mapInsert_map_fst (m : List (String × Bool)) (k : String) (v : Bool) :
    (mapInsert m k v).map Prod.fst
      = if m.any (fun p => p.1 == k) then m.map Prod.fst else m.map Prod.fst ++ [k] := by
  by_cases hany : m.any (fun p => p.1 == k) = true
  · rw [mapInsert, if_pos hany, if_pos hany, List.map_map]
    apply List.map_congr_left
    intro p _
    by_cases h : (p.1 == k) = true
    · have h2 := beq_iff_eq.mp h
      simp [Function.comp, h, h2]
    · simp [Function.comp, h]
  · rw [mapInsert, if_neg hany, if_neg hany, List.map_append]
    rfl

theorem mem_mapInsert_keys (m : List (String × Bool)) (k : String) (v : Bool) (q : String) :
    q ∈ (mapInsert m k v).map Prod.fst ↔ q ∈ m.map Prod.fst ∨ q = k := by
  rw [mapInsert_map_fst]
  by_cases hany : m.any (fun p => p.1 == k) = true
  · rw [if_pos hany]
    constructor
    · exact Or.inl
    · rintro (h | rfl)
      · exact h
      · rcases List.any_eq_true.mp hany with ⟨p, hp, hpk⟩
        exact List.mem_map.mpr ⟨p, hp, beq_iff_eq.mp hpk⟩
  · rw [if_neg hany]
    simp [List.mem_append]

theorem mapInsert_keys_nodup (m : List (String × Bool)) (k : String) (v : Bool)
    (h : (m.map Prod.fst).Nodup) : ((mapInsert m k v).map Prod.fst).Nodup := by
  rw [mapInsert_map_fst]
  by_cases hany : m.any (fun p => p.1 == k) = true
  · rw [if_pos hany]
    exact h
  · rw [if_neg hany]
    have hk : k ∉ m.map Prod.fst := by
      intro hmem
      rcases List.mem_map.mp hmem with ⟨p, hp, hpk⟩
      exact hany (List.any_eq_true.mpr ⟨p, hp, beq_iff_eq.mpr hpk⟩)
    simp [List.nodup_append, h, hk]

theorem mapLookup_mapInsert (m : List (String × Bool)) (k : String) (v : Bool) (q : String) :
    mapLookup (mapInsert m k v) q = if q = k then some v else mapLookup m q := by
  by_cases hany : m.any (fun p => p.1 == k) = true
  · rw [mapInsert, if_pos hany]
    have hpred : ((fun p : String × Bool => p.1 == q)
          ∘ (fun p : String × Bool => if p.1 == k then (k, v) else p))
        = (fun p : String × Bool => p.1 == q) := by
      funext p
      by_cases h : (p.1 == k) = true
      · have h2 := beq_iff_eq.mp h
        simp [Function.comp, h, h2]
      · simp [Function.comp, h]
    rw [mapLookup, List.find?_map, hpred, Option.map_map]
    by_cases hq : q = k
    · subst hq
      have hsome : (m.find? (fun p => p.1 == q)).isSome :=
        List.find?_isSome.mpr (List.any_eq_true.mp hany)
      obtain ⟨p0, hp0⟩ := Option.isSome_iff_exists.mp hsome
      have hpred0 := List.find?_some hp0
      have heq0 : p0.1 = q := beq_iff_eq.mp hpred0
      rw [hp0, if_pos rfl]
      simp [Function.comp, heq0]
    · rw [if_neg hq, mapLookup]
      cases hfind : m.find? (fun p => p.1 == q) with
      | none => simp [hfind]
      | some p0 =>
          have hfound := List.find?_some hfind
          have hpq : p0.1 = q := beq_iff_eq.mp hfound
          have hpk : (p0.1 == k) = false := by
            rw [Bool.eq_false_iff]
            intro hcontra
            exact hq (hpq ▸ beq_iff_eq.mp hcontra)
          simp [hfind, Function.comp, hpq, hq]
  · rw [mapInsert, if_neg hany, mapLookup, List.find?_append]
    have hnone : m.find? (fun p => p.1 == k) = none :=
      List.find?_eq_none.mpr (fun x hx hpx => hany (List.any_eq_true.mpr ⟨x, hx, hpx⟩))
    by_cases hq : q = k
    · subst hq
      simp [hnone, List.find?]
    · have hbeq : (k == q) = false := by
        rw [Bool.eq_false_iff]
        intro hcontra
        exact hq (beq_iff_eq.mp hcontra).symm
      simp [mapLookup, List.find?, hbeq, hq]

theorem collectLoop_correct (s : List (String × Bool)) :
    ∀ m : List (String × Bool),
      (collectLoop s.length m s).2 = [] ∧
      (∀ k, mapLookup (collectLoop s.length m s).1 k
          = ((s.reverse.find? (fun q => q.1 == k)).map Prod.snd).or (mapLookup m k)) ∧
      (∀ k, k ∈ (collectLoop s.length m s).1.map Prod.fst
          ↔ k ∈ m.map Prod.fst ∨ k ∈ s.map Prod.fst) ∧
      ((m.map Prod.fst).Nodup → ((collectLoop s.length m s).1.map Prod.fst).Nodup) := by
  induction s with
  | nil =>
      intro m
      refine ⟨rfl, ?_, ?_, fun h => h⟩
      · intro k
        simp [collectLoop]
      · intro k
        simp [collectLoop]
  | cons r s2 ih =>
      intro m
      obtain ⟨h1, h2, h3, h4⟩ := ih (mapInsert m r.1 r.2)
      refine ⟨h1, ?_, ?_, fun hm => h4 (mapInsert_keys_nodup m r.1 r.2 hm)⟩
      · intro k
        show mapLookup (collectLoop s2.length (mapInsert m r.1 r.2) s2).1 k
            = (((r :: s2).reverse.find? (fun q => q.1 == k)).map Prod.snd).or (mapLookup m k)
        rw [h2 k, mapLookup_mapInsert, List.reverse_cons, List.find?_append]
        cases hfind : s2.reverse.find? (fun q => q.1 == k) with
        | some p0 => simp [hfind]
        | none =>
            by_cases hk : k = r.1
            · have hbeq : (r.1 == k) = true := beq_iff_eq.mpr hk.symm
              simp [hfind, List.find?, hbeq, hk]
            · have hbeq : (r.1 == k) = false := by
                rw [Bool.eq_false_iff]
                intro hcontra
                exact hk (beq_iff_eq.mp hcontra).symm
              simp [hfind, List.find?, hbeq, hk]
      · intro k
        show k ∈ (collectLoop s2.length (mapInsert m r.1 r.2) s2).1.map Prod.fst
            ↔ k ∈ m.map Prod.fst ∨ k ∈ (r :: s2).map Prod.fst
        rw [h3 k, mem_mapInsert_keys]
        simp only [List.map_cons, List.mem_cons]
        tauto

/-- C6: when the stream of channel arrivals carries one message per input
(each task reports its own path), the orchestrator's loop consumes the
whole stream — exactly `len(files)` receives — and the final map has
no duplicate keys, holds exactly one outcome per distinct input path, and
maps each path to the outcome of the last-arriving message for that
path. -/
theorem orchestrator_batch_result (files : List String) (stream : List (String × Bool))
    (hlen : stream.length = files.length)
    (hperm : (stream.map Prod.fst).Perm files) :
    (collectLoop files.length [] stream).2 = [] ∧
    ((collectLoop files.length [] stream).1.map Prod.fst).Nodup ∧
    (∀ p, p ∈ (collectLoop files.length [] stream).1.map Prod.fst ↔ p ∈ files) ∧
    (∀ p, mapLookup (collectLoop files.length [] stream).1 p
        = (stream.reverse.find? (fun q => q.1 == p)).map Prod.snd) := by
  rw [← hlen]
  obtain ⟨h1, h2, h3, h4⟩ := collectLoop_correct stream []
  refine ⟨h1, h4 (by simp), ?_, ?_⟩
  · intro p
    rw [h3 p]
    simp only [List.map_nil, List.not_mem_nil, false_or]
    exact hperm.mem_iff
  · intro p
    rw [h2 p]
    simp [mapLookup]

/-- Witness for C6: three arrivals for the duplicated input list
["a", "b", "a"] produce a duplicate-free map in which "a" holds the
last-arriving outcome. -/
theorem orchestrator_batch_result_witness :
    ((collectLoop 3 [] [("a", true), ("b", false), ("a", false)]).1.map Prod.fst).Nodup ∧
    mapLookup (collectLoop 3 [] [("a", true), ("b", false), ("a", false)]).1 "a"
      = some false := by
  have h := orchestrator_batch_result ["a", "b", "a"]
    [("a", true), ("b", false), ("a", false)] rfl (List.Perm.refl _)
  exact ⟨h.2.1, (h.2.2.2 "a").trans (by decide)⟩

/-- C7: once argument validation has passed (at least three arguments and
an output-directory check returning true), the modelled process falls off
the end of `main` with exit status 0, whatever outcomes the individual
tasks deliver. -/
theorem exit_zero_after_validation (argv : List String) (stat : Except String Bool)
    (arrivals : List (String × Bool)) (hargs : 3 ≤ argv.length)
    (hstat : stat = .ok true) :
    (mainGo argv stat arrivals).exitCode = 0 := by
  subst hstat
  have h3 : ¬ argv.length < 3 := Nat.not_lt.mpr hargs
  simp [mainGo, h3]

/-- Witness for C7: a concrete invocation whose tasks all fail still exits
with status 0. -/
theorem exit_zero_after_validation_witness :
    (mainGo ["epub-renamer", "out", "a.epub", "b.epub"] (.ok true)
        [("a.epub", false), ("b.epub", false)]).exitCode = 0 :=
  exit_zero_after_validation _ _ _ (by decide) rfl

/-- C8: when the output-directory check does not come back `ok true` —
`os.Stat` failed (the path does not exist) or the path is not a directory —
the process exits with a non-zero status, launches no Copy Task, and its
results map stays empty, so no output file is created. -/
theorem invalid_output_dir_aborts (argv : List String) (stat : Except String Bool)
    (arrivals : List (String × Bool)) (hstat : stat ≠ .ok true) :
    (mainGo argv stat arrivals).exitCode ≠ 0 ∧
    (mainGo argv stat arrivals).launched = [] ∧
    (mainGo argv stat arrivals).results = [] := by
  by_cases hargs : argv.length < 3
  · simp [mainGo, hargs]
  · cases stat with
    | error e => simp [mainGo, hargs]
    | ok b =>
        cases b with
        | false => simp [mainGo, hargs]
        | true => exact absurd rfl hstat

/-- Witness for C8: with a missing output directory the process exits
non-zero and launches nothing. -/
theorem invalid_output_dir_aborts_witness :
    (mainGo ["epub-renamer", "out", "a.epub"]
        (.error "stat out: no such file or directory") []).exitCode ≠ 0 ∧
    (mainGo ["epub-renamer", "out", "a.epub"]
        (.error "stat out: no such file or directory") []).launched = [] := by
  have h := invalid_output_dir_aborts ["epub-renamer", "out", "a.epub"]
    (.error "stat out: no such file or directory") [] (by simp)
  exact ⟨h.1, h.2.1⟩

end EpubRenamer
